import Mathlib

/-!
Verification of the streaming response normalizer of the agent API
(`src/agent/app.py`): the `generate_stream` async generator, the
`get_tool_status` classifier and the image-extraction paths are embedded
as pure Lean functions over an explicit event/state model, and the
spec's claims about them are proved or refuted.

Conventions of the embedding:
* A Python attribute that may be absent is an `Option`; `.getD` mirrors
  `getattr(x, k, default)` / `dict.get(k, default)`.
* Python truthiness of the values that matter here (strings, lists) is
  `≠ ""` / `≠ []`.
* `json.loads` is embedded as a strict recursive-descent JSON parser
  (`json_loads`); parse failure is `none` (Python: `JSONDecodeError`).
* The async generator is a fold over the list of upstream events: each
  event maps the mutable state `(full_response, images, tool_in_progress)`
  to a new state while emitting a list of output records.
-/

namespace AgentApp

/-! ### Python string semantics (all implemented by structural recursion
on the character list, so that the kernel can evaluate them) -/

/-- Consume an expected literal character sequence from the front. -/
def dropLit : List Char → List Char → Option (List Char)
  | [], cs => some cs
  | p :: ps, c :: cs => if c = p then dropLit ps cs else none
  | _ :: _, [] => none

/-- Whether a non-empty pattern occurs in the text. -/
def containsAux (pat : List Char) : List Char → Bool
  | [] => false
  | c :: cs =>
    match dropLit pat (c :: cs) with
    | some _ => true
    | none => containsAux pat cs

/-- Python's substring test `sub in s` (`"" in s` is `True`). -/
def strContains (s sub : String) : Bool :=
  match sub.data with
  | [] => true
  | _ :: _ => containsAux sub.data s.data

/-- Python's `s.startswith(pre)`. -/
def pyStartsWith (s pre : String) : Bool :=
  match dropLit pre.data s.data with
  | some _ => true
  | none => false

/-- Python's `s.lower()` (ASCII case mapping suffices here). -/
def pyToLower (s : String) : String :=
  String.mk (s.data.map Char.toLower)

/-- Fuel-driven splitter on a non-empty separator (leftmost,
non-overlapping, as Python's `str.split`); the fuel strictly decreases on
every recursive call and `pySplit` supplies enough for any input. -/
def splitOnFuel (sep : List Char) : Nat → List Char → List (List Char)
  | 0, cs => [cs]
  | Nat.succ fuel, cs =>
    match cs with
    | [] => [[]]
    | c :: cs2 =>
      match dropLit sep cs with
      | some rest => [] :: splitOnFuel sep fuel rest
      | none =>
        match splitOnFuel sep fuel cs2 with
        | [] => [[c]]
        | p :: ps => (c :: p) :: ps

/-- Python's `s.split(sep)` for a non-empty separator. -/
def pySplit (s sep : String) : List String :=
  (splitOnFuel sep.data (s.data.length + 1) s.data).map String.mk

/-- Join a list of strings with a separator (Python's `sep.join`). -/
def joinSep (sep : String) : List String → String
  | [] => ""
  | [x] => x
  | x :: xs => x ++ sep ++ joinSep sep xs

/-- Python's `s.split(sep, 1)`: `none` when `sep` does not occur, else the
text before the first occurrence and everything after it. -/
def splitOnce (sep s : String) : Option (String × String) :=
  match pySplit s sep with
  | [] => none
  | [_] => none
  | p :: rest => some (p, joinSep sep rest)

/-- Python's `mime_part.split("image/")[1].split(";")[0]` (used on data
URIs after checking `"image/" in mime_part`). -/
def afterImageSlash (mime_part : String) : String :=
  (pySplit ((pySplit mime_part "image/").getD 1 "") ";").headD ""

/-- Python's `mime_type.split("/")[-1]`. -/
def lastSlashSeg (s : String) : String :=
  (pySplit s "/").getLastD ""

/-! ### JSON values and `json.loads` -/

/-- A parsed JSON value; numbers keep their raw lexeme. -/
inductive JVal where
  | null
  | bool (b : Bool)
  | num (raw : String)
  | str (s : String)
  | arr (elems : List JVal)
  | obj (fields : List (String × JVal))

/-- JSON whitespace skipping. -/
def skipWs : List Char → List Char
  | [] => []
  | c :: rest =>
      if c = ' ' ∨ c = '\t' ∨ c = '\n' ∨ c = '\x0d' then skipWs rest else c :: rest

/-- Hexadecimal digit value. -/
def hexVal (c : Char) : Option Nat :=
  if '0' ≤ c ∧ c ≤ '9' then some (c.toNat - '0'.toNat)
  else if 'a' ≤ c ∧ c ≤ 'f' then some (c.toNat - 'a'.toNat + 10)
  else if 'A' ≤ c ∧ c ≤ 'F' then some (c.toNat - 'A'.toNat + 10)
  else none

/-- Body of a JSON string after the opening quote; returns the decoded
characters and the remaining input (strict mode: raw control characters
are rejected, as in `json.loads`). -/
def parseStrChars : List Char → Option (List Char × List Char)
  | [] => none
  | c :: rest =>
    if c = '"' then some ([], rest)
    else if c = '\\' then
      match rest with
      | [] => none
      | e :: rest2 =>
        if e = '"' then (parseStrChars rest2).map fun p => ('"' :: p.1, p.2)
        else if e = '\\' then (parseStrChars rest2).map fun p => ('\\' :: p.1, p.2)
        else if e = '/' then (parseStrChars rest2).map fun p => ('/' :: p.1, p.2)
        else if e = 'b' then (parseStrChars rest2).map fun p => ('\x08' :: p.1, p.2)
        else if e = 'f' then (parseStrChars rest2).map fun p => ('\x0c' :: p.1, p.2)
        else if e = 'n' then (parseStrChars rest2).map fun p => ('\n' :: p.1, p.2)
        else if e = 'r' then (parseStrChars rest2).map fun p => ('\x0d' :: p.1, p.2)
        else if e = 't' then (parseStrChars rest2).map fun p => ('\t' :: p.1, p.2)
        else if e = 'u' then
          match rest2 with
          | h1 :: h2 :: h3 :: h4 :: rest3 =>
            match hexVal h1, hexVal h2, hexVal h3, hexVal h4 with
            | some a, some b, some c3, some d =>
                (parseStrChars rest3).map fun p =>
                  (Char.ofNat (((a * 16 + b) * 16 + c3) * 16 + d) :: p.1, p.2)
            | _, _, _, _ => none
          | _ => none
        else none
    else if c.toNat < 32 then none
    else (parseStrChars rest).map fun p => (c :: p.1, p.2)

/-- Digit span. -/
def spanDigits : List Char → List Char × List Char
  | [] => ([], [])
  | c :: rest =>
      if c.isDigit then
        ((spanDigits rest).1.cons c, (spanDigits rest).2)
      else ([], c :: rest)

/-- Exponent part of a JSON number (optional). -/
def parseExpPart (acc : List Char) (cs : List Char) : Option (List Char × List Char) :=
  match cs with
  | e :: rest =>
    if e = 'e' ∨ e = 'E' then
      let sp : List Char × List Char :=
        match rest with
        | '+' :: r => (['+'], r)
        | '-' :: r => (['-'], r)
        | _ => ([], rest)
      match spanDigits sp.2 with
      | ([], _) => none
      | (ds, r2) => some (acc ++ e :: (sp.1 ++ ds), r2)
    else some (acc, cs)
  | [] => some (acc, [])

/-- Fraction part of a JSON number (optional), then exponent. -/
def parseFracPart (acc : List Char) (cs : List Char) : Option (List Char × List Char) :=
  match cs with
  | '.' :: rest =>
    match spanDigits rest with
    | ([], _) => none
    | (ds, r) => parseExpPart (acc ++ '.' :: ds) r
  | _ => parseExpPart acc cs

/-- A JSON number lexeme (strict grammar: no leading zeros). -/
def parseNumber (cs : List Char) : Option (List Char × List Char) :=
  let sp : List Char × List Char :=
    match cs with
    | '-' :: r => (['-'], r)
    | _ => ([], cs)
  match sp.2 with
  | '0' :: r => parseFracPart (sp.1 ++ ['0']) r
  | c :: r =>
      if c.isDigit then
        match spanDigits r with
        | (d, r2) => parseFracPart (sp.1 ++ c :: d) r2
      else none
  | [] => none

mutual

/-- Fuel-indexed JSON value parser (the fuel strictly decreases on every
recursive call; `json_loads` supplies enough for any input). -/
def parseJ : Nat → List Char → Option (JVal × List Char)
  | 0, _ => none
  | Nat.succ fuel, cs =>
    match skipWs cs with
    | [] => none
    | c :: rest =>
      if c = '"' then
        match parseStrChars rest with
        | some (sc, r) => some (JVal.str (String.mk sc), r)
        | none => none
      else if c = '\x7b' then
        match skipWs rest with
        | '\x7d' :: r2 => some (JVal.obj [], r2)
        | _ => parseMembers fuel rest []
      else if c = '[' then
        match skipWs rest with
        | ']' :: r2 => some (JVal.arr [], r2)
        | _ => parseElems fuel rest []
      else if c = 't' then
        match dropLit ['r', 'u', 'e'] rest with
        | some r => some (JVal.bool true, r)
        | none => none
      else if c = 'f' then
        match dropLit ['a', 'l', 's', 'e'] rest with
        | some r => some (JVal.bool false, r)
        | none => none
      else if c = 'n' then
        match dropLit ['u', 'l', 'l'] rest with
        | some r => some (JVal.null, r)
        | none => none
      else if c = 'N' then
        match dropLit ['a', 'N'] rest with
        | some r => some (JVal.num "NaN", r)
        | none => none
      else if c = 'I' then
        match dropLit ['n', 'f', 'i', 'n', 'i', 't', 'y'] rest with
        | some r => some (JVal.num "Infinity", r)
        | none => none
      else if c = '-' then
        match rest with
        | 'I' :: r =>
          match dropLit ['n', 'f', 'i', 'n', 'i', 't', 'y'] r with
          | some r2 => some (JVal.num "-Infinity", r2)
          | none => none
        | _ =>
          match parseNumber (c :: rest) with
          | some (raw, r) => some (JVal.num (String.mk raw), r)
          | none => none
      else if c.isDigit then
        match parseNumber (c :: rest) with
        | some (raw, r) => some (JVal.num (String.mk raw), r)
        | none => none
      else none

/-- Members of a JSON object (after the opening brace, non-empty case). -/
def parseMembers : Nat → List Char → List (String × JVal) →
    Option (JVal × List Char)
  | 0, _, _ => none
  | Nat.succ fuel, cs, acc =>
    match skipWs cs with
    | '"' :: rest =>
      match parseStrChars rest with
      | some (key, r1) =>
        match skipWs r1 with
        | ':' :: r2 =>
          match parseJ fuel r2 with
          | some (v, r3) =>
            match skipWs r3 with
            | ',' :: r4 => parseMembers fuel r4 (acc ++ [(String.mk key, v)])
            | '\x7d' :: r4 => some (JVal.obj (acc ++ [(String.mk key, v)]), r4)
            | _ => none
          | none => none
        | _ => none
      | none => none
    | _ => none

/-- Elements of a JSON array (after the opening bracket, non-empty case). -/
def parseElems : Nat → List Char → List JVal → Option (JVal × List Char)
  | 0, _, _ => none
  | Nat.succ fuel, cs, acc =>
    match parseJ fuel cs with
    | some (v, r1) =>
      match skipWs r1 with
      | ',' :: r2 => parseElems fuel r2 (acc ++ [v])
      | ']' :: r2 => some (JVal.arr (acc ++ [v]), r2)
      | _ => none
    | none => none

end

/-- Embedding of Python's `json.loads`: parse one value, demand that only
whitespace remains; `none` models a raised `JSONDecodeError`. -/
def json_loads (s : String) : Option JVal :=
  match parseJ (s.length + 1) s.data with
  | some (v, rest) => if skipWs rest = [] then some v else none
  | none => none

/-- `dict.get key` on a parsed JSON object; with duplicate keys the last
occurrence wins, as in Python's dict construction. -/
def jsonGet : List (String × JVal) → String → Option JVal
  | [], _ => none
  | (k, v) :: rest, key =>
    match jsonGet rest key with
    | some w => some w
    | none => if k = key then some v else none

/-- `dict.get key default` specialised to string values. -/
def jsonGetStrD (kvs : List (String × JVal)) (key d : String) : String :=
  match jsonGet kvs key with
  | some (JVal.str s) => s
  | _ => d

/-- `dict.get "type" == val` for a string `val`. -/
def jsonTypeIs (kvs : List (String × JVal)) (val : String) : Bool :=
  match jsonGet kvs "type" with
  | some (JVal.str s) => s = val
  | _ => false

/-! ### Data model of the upstream events (shapes `generate_stream` probes) -/

/-- A canonical decoded image record, as placed in `images` and serialized
under the `image` key. -/
structure ImageRec where
  base64 : String
  format : String
deriving DecidableEq, Repr

/-- One entry of a files-form output: `dict.get "file_data"` /
`dict.get "mime_type"` (absent keys are `none`). -/
structure ImageFile where
  file_data : Option String
  mime_type : Option String
deriving DecidableEq, Repr

/-- One element of an `outputs` list. `image` carries the optional `url`,
`base64`, `data` and `format` keys the code probes; `files` carries the
`files` list; `other` is any other dict or a non-dict element. -/
inductive OutputRec where
  | image (url base64 data format : Option String)
  | files (files : List ImageFile)
  | other
deriving DecidableEq, Repr

/-- A content block. Dict-shaped blocks are tagged by their `type` key
(`otherDict` for unrecognized tags); `objText` / `objImage` / `objOther`
are the object-shaped blocks probed with `hasattr`. -/
inductive Block where
  | text (text : String)
  | reasoning
  | server_tool_call (name : Option String)
  | server_tool_result
  | code_interpreter_call (outputs : List OutputRec)
  | image (url base64 format : Option String)
  | otherDict
  | objText (text : String)
  | objImage (base64 data format : Option String)
  | objOther
deriving DecidableEq, Repr

/-- The `content` attribute of an upstream event: a plain string, a list
of blocks, some other truthy value, or a falsy value (e.g. `None`). -/
inductive Content where
  | str (s : String)
  | blocks (bs : List Block)
  | otherTruthy
  | noneVal
deriving DecidableEq, Repr

/-- Python truthiness of a content value. -/
def contentTruthy : Content → Bool
  | Content.str s => s ≠ ""
  | Content.blocks bs => bs ≠ []
  | Content.otherTruthy => true
  | Content.noneVal => false

/-- The `response_metadata` dict: `code_interpreter_call.outputs` and
top-level `outputs` (absent keys are the empty list, as produced by the
`.get(..., [])` defaults). -/
structure RespMeta where
  cic_outputs : List OutputRec
  outputs : List OutputRec
deriving DecidableEq, Repr

/-- An upstream event (one `token` of the `astream` loop). `tool_calls`
and `additional_kwargs_tool_calls` are the tool-call lists ( `[]` both for
an absent attribute and for a falsy value); each element is the optional
tool name (`none` defaults to `"tool"` on extraction). -/
structure Event where
  msg_type : Option String
  tool_calls : List (Option String)
  additional_kwargs_tool_calls : List (Option String)
  content : Option Content
  response_metadata : Option RespMeta
deriving DecidableEq, Repr

/-- The normalizer's per-request mutable state. -/
structure NState where
  full_response : String
  images : List ImageRec
  tool_in_progress : Bool
deriving DecidableEq, Repr

/-- A canonical output record: one newline-delimited JSON object of the
response stream. `status ""` is the StatusClear record. -/
inductive Out where
  | chunk (text : String)
  | status (label : String)
  | image (image : ImageRec)
  | done (message : String) (images : List ImageRec) (role : String)
deriving DecidableEq, Repr

/-! ### Tool-status classifier (`get_tool_status`) -/

/-- The generic data-access keywords of the final classifier rule. -/
def dbTerms : List String :=
  ["query", "sql", "database", "db", "sales", "customer", "order", "product"]

/-- The ordered rule chain applied to one lowercased name. -/
def toolRule (name_lower : String) : Option String :=
  if strContains name_lower "semantic_search" then
    some "🔍 Searching products..."
  else if strContains name_lower "execute_sales_query" ||
      strContains name_lower "get_table_schemas" then
    some "🔍 Querying database..."
  else if strContains name_lower "get_current_utc_date" then
    some "⏰ Getting current time..."
  else if strContains name_lower "image" || strContains name_lower "generate_image" then
    some "🎨 Generating image..."
  else if strContains name_lower "web_search" then
    some "🔎 Searching the web..."
  else if strContains name_lower "code_interpreter" || strContains name_lower "code" then
    some "💻 Running code..."
  else if dbTerms.any (fun t => strContains name_lower t) then
    some "🔍 Querying database..."
  else none

/-- The `for name in tool_names` loop: first name matching any rule wins. -/
def toolStatusLoop : List String → Option String
  | [] => none
  | name :: rest =>
    match toolRule (if name ≠ "" then pyToLower name else "") with
    | some l => some l
    | none => toolStatusLoop rest

/-- `get_tool_status`: status label for a list of tool names. -/
def get_tool_status (tool_names : List String) : String :=
  match toolStatusLoop tool_names with
  | some l => l
  | none => "⚙️ Using " ++ tool_names.headD "tool" ++ "..."

/-! ### The normalizer (`generate_stream`), one event at a time -/

/-- Handler for one output of a `code_interpreter_call` block's `outputs`
list (data-URI or direct-base64 image; other shapes ignored). -/
def processCicOutput (st : NState) (o : OutputRec) : List Out × NState :=
  match o with
  | OutputRec.image url b64 data fmt =>
    let u := url.getD ""
    if pyStartsWith u "data:image/" then
      match splitOnce "," u with
      | some (mime_part, b64_data) =>
        let img_format := if strContains mime_part "image/" then afterImageSlash mime_part else "png"
        let img : ImageRec := ⟨b64_data, img_format⟩
        ([Out.image img], { st with images := st.images ++ [img] })
      | none => ([], st)
    else
      let bz := b64.getD (data.getD "")
      if bz ≠ "" then
        let img : ImageRec := ⟨bz, fmt.getD "png"⟩
        ([Out.image img], { st with images := st.images ++ [img] })
      else ([], st)
  | _ => ([], st)

/-- Handler for one file of a files-form metadata output. -/
def processFile (st : NState) (f : ImageFile) : List Out × NState :=
  if strContains (f.mime_type.getD "") "image" then
    let img : ImageRec := ⟨f.file_data.getD "", lastSlashSeg (f.mime_type.getD "image/png")⟩
    ([Out.image img], { st with images := st.images ++ [img] })
  else ([], st)

/-- Fold a per-item handler over a list, threading the state and
concatenating the emitted records in order. -/
def foldOuts {α : Type} (f : NState → α → List Out × NState) :
    NState → List α → List Out × NState
  | st, [] => ([], st)
  | st, a :: as =>
    let r1 := f st a
    let r2 := foldOuts f r1.2 as
    (r1.1 ++ r2.1, r2.2)

/-- Handler for one output of the response-metadata `outputs` list
(files form or direct image form). -/
def processMetaOutput (st : NState) (o : OutputRec) : List Out × NState :=
  match o with
  | OutputRec.files fs => foldOuts processFile st fs
  | OutputRec.image _ b64 data fmt =>
    let img : ImageRec := ⟨b64.getD (data.getD ""), fmt.getD "png"⟩
    ([Out.image img], { st with images := st.images ++ [img] })
  | OutputRec.other => ([], st)

/-- Inspection of `response_metadata` for out-of-band tool outputs:
`code_interpreter_call.outputs` first, falling back to top-level
`outputs` when the former is falsy. -/
def processMeta (st : NState) (md : Option RespMeta) : List Out × NState :=
  match md with
  | none => ([], st)
  | some m =>
    let outputs := if m.cic_outputs ≠ [] then m.cic_outputs else m.outputs
    foldOuts processMetaOutput st outputs

/-- Handler for a direct `image` content block (data URI in `url`, or a
`base64` field). -/
def processImageBlock (st : NState) (url b64 fmt : Option String) :
    List Out × NState :=
  let u := url.getD ""
  if pyStartsWith u "data:image/" then
    match splitOnce "," u with
    | some (mime_part, b64_data) =>
      let img_format := if strContains mime_part "image/" then afterImageSlash mime_part else "png"
      let img : ImageRec := ⟨b64_data, img_format⟩
      ([Out.image img], { st with images := st.images ++ [img] })
    | none => ([], st)
  else
    let bz := b64.getD ""
    if bz ≠ "" then
      let img : ImageRec := ⟨bz, fmt.getD "png"⟩
      ([Out.image img], { st with images := st.images ++ [img] })
    else ([], st)

/-- The status announcement of a `code_interpreter_call` block seen
before its outputs: only when no status is active and `outputs` is empty. -/
def cicStatusStep (st : NState) (outputs : List OutputRec) : List Out × NState :=
  if st.tool_in_progress = false ∧ outputs = [] then
    ([Out.status "💻 Running code..."], { st with tool_in_progress := true })
  else ([], st)

/-- The status clearing of a `code_interpreter_call` block that carries
outputs: clear first when a status is active. -/
def cicClearStep (st : NState) (outputs : List OutputRec) : List Out × NState :=
  if outputs ≠ [] then
    if st.tool_in_progress then
      ([Out.status ""], { st with tool_in_progress := false })
    else ([], st)
  else ([], st)

/-- Handler for a `code_interpreter_call` content block: status or clear,
then the loop over its `outputs`. -/
def processCicBlock (st : NState) (outputs : List OutputRec) : List Out × NState :=
  let r1 := cicStatusStep st outputs
  let r2 := cicClearStep r1.2 outputs
  let r3 := foldOuts processCicOutput r2.2 outputs
  (r1.1 ++ r2.1 ++ r3.1, r3.2)

/-- Handler for one content block of a block-list content. -/
def processBlock (st : NState) (b : Block) : List Out × NState :=
  match b with
  | Block.text t =>
    if t ≠ "" then
      ([Out.chunk t], { st with full_response := st.full_response ++ t })
    else ([], st)
  | Block.reasoning => ([], st)
  | Block.server_tool_call name =>
    if st.tool_in_progress = false then
      ([Out.status (get_tool_status [name.getD "tool"])],
        { st with tool_in_progress := true })
    else ([], st)
  | Block.server_tool_result =>
    if st.tool_in_progress then
      ([Out.status ""], { st with tool_in_progress := false })
    else ([], st)
  | Block.code_interpreter_call outputs => processCicBlock st outputs
  | Block.image url b64 fmt => processImageBlock st url b64 fmt
  | Block.otherDict => ([], st)
  | Block.objText t =>
    if t ≠ "" then
      ([Out.chunk t], { st with full_response := st.full_response ++ t })
    else ([], st)
  | Block.objImage b64 data fmt =>
    let img : ImageRec := ⟨b64.getD (data.getD ""), fmt.getD "png"⟩
    if img.base64 ≠ "" then
      ([Out.image img], { st with images := st.images ++ [img] })
    else ([], st)
  | Block.objOther => ([], st)

/-- Probe of a plain-string content for an embedded JSON image object:
the guard (starts with a brace and contains the literal substring
`"type": "image"`), then `json.loads`, then the `type` check. -/
def strImageProbe (s : String) : Option ImageRec :=
  if pyStartsWith s "\x7b" && strContains s "\"type\": \"image\"" then
    match json_loads s with
    | some (JVal.obj kvs) =>
      if jsonTypeIs kvs "image" then
        some ⟨jsonGetStrD kvs "base64" "", jsonGetStrD kvs "format" "png"⟩
      else none
    | _ => none
  else none

/-- The plain-string content branch: emit the embedded image if the probe
finds one, else append to `full_response` and emit a chunk. -/
def processStrContent (st : NState) (s : String) : List Out × NState :=
  if s ≠ "" then
    match strImageProbe s with
    | some img => ([Out.image img], { st with images := st.images ++ [img] })
    | none => ([Out.chunk s], { st with full_response := st.full_response ++ s })
  else ([], st)

/-- Dispatch on the shape of a (truthy) content value. -/
def processContent (st : NState) (c : Content) : List Out × NState :=
  match c with
  | Content.blocks bs => foldOuts processBlock st bs
  | Content.str s => processStrContent st s
  | _ => ([], st)

/-- The tool-result branch (`msg_type` is `tool` or `function`): probe a
string content for a JSON image object behind the `base64`/`image`/`png`
substring pre-filter; anything else is dropped. -/
def processToolMsg (st : NState) (e : Event) : List Out × NState :=
  match e.content with
  | some (Content.str s) =>
    if s ≠ "" then
      if strContains s "base64" && (strContains s "image" || strContains s "png") then
        match json_loads s with
        | some (JVal.obj kvs) =>
          if jsonTypeIs kvs "image" then
            let img : ImageRec := ⟨jsonGetStrD kvs "base64" "", jsonGetStrD kvs "format" "png"⟩
            ([Out.image img], { st with images := st.images ++ [img] })
          else ([], st)
        | _ => ([], st)
      else ([], st)
    else ([], st)
  | _ => ([], st)

/-- The status reset that precedes content processing: once an event is
neither a tool result nor a tool-call announcement, an active status is
cleared (regardless of what the event's content holds). -/
def eventClearStep (st : NState) : List Out × NState :=
  if st.tool_in_progress then
    ([Out.status ""], { st with tool_in_progress := false })
  else ([], st)

/-- One iteration of the `astream` loop: process one upstream event,
emitting records and updating the state. -/
def processEvent (st : NState) (e : Event) : List Out × NState :=
  if e.msg_type = some "tool" ∨ e.msg_type = some "function" then
    processToolMsg st e
  else if e.tool_calls ≠ [] then
    if st.tool_in_progress = false then
      ([Out.status (get_tool_status (e.tool_calls.map (fun tc => tc.getD "tool")))],
        { st with tool_in_progress := true })
    else ([], st)
  else if e.additional_kwargs_tool_calls ≠ [] then
    if st.tool_in_progress = false then
      ([Out.status (get_tool_status
          (e.additional_kwargs_tool_calls.map (fun tc => tc.getD "tool")))],
        { st with tool_in_progress := true })
    else ([], st)
  else
    match e.content with
    | none => eventClearStep st
    | some c =>
      if contentTruthy c then
        let r0 := eventClearStep st
        let r1 := processMeta r0.2 e.response_metadata
        let r2 := processContent r1.2 c
        (r0.1 ++ r1.1 ++ r2.1, r2.2)
      else eventClearStep st

/-- The fresh per-request state. -/
def initState : NState := ⟨"", [], false⟩

/-- The whole `astream` loop from the fresh state. -/
def runEvents (events : List Event) : List Out × NState :=
  foldOuts processEvent initState events

/-- The whole generator on a finite upstream sequence: the loop followed
by the terminal record. -/
def generate_stream (events : List Event) : List Out :=
  (runEvents events).1 ++
    [Out.done (runEvents events).2.full_response (runEvents events).2.images "assistant"]

/-- An upstream item for the failure model: a normal event, or the point
where the upstream iterator raises. -/
inductive UpItem where
  | ev (e : Event)
  | raiseExc (msg : String)
deriving DecidableEq, Repr

/-- The generator when the upstream iterator may raise: an uncaught
exception propagates out of the generator, so the output stops at that
point with no terminal record of any kind. -/
def generate_stream_excFrom (st : NState) : List UpItem → List Out
  | [] => [Out.done st.full_response st.images "assistant"]
  | UpItem.ev e :: rest =>
    (processEvent st e).1 ++ generate_stream_excFrom (processEvent st e).2 rest
  | UpItem.raiseExc _ :: _ => []

/-- The failure-model generator from the fresh state. -/
def generate_stream_exc (items : List UpItem) : List Out :=
  generate_stream_excFrom initState items

/-! ### Measures of an output stream -/

/-- Whether a record is the terminal record. -/
def isDone : Out → Bool
  | Out.done _ _ _ => true
  | _ => false

/-- No terminal record occurs in the list. -/
def noDone (outs : List Out) : Bool :=
  outs.all (fun o => !isDone o)

/-- Ordered concatenation of the texts of all chunk records. -/
def chunksText : List Out → String
  | [] => ""
  | Out.chunk t :: rest => t ++ chunksText rest
  | _ :: rest => chunksText rest

/-- Ordered list of all image records. -/
def imagesOf : List Out → List ImageRec
  | [] => []
  | Out.image i :: rest => i :: imagesOf rest
  | _ :: rest => imagesOf rest

/-- Status alternation relative to an open-status flag: a non-empty
status label requires no open status (and opens one); a `status ""`
(StatusClear) requires an open status (and closes it). -/
def altFrom : Bool → List Out → Bool
  | _, [] => true
  | b, Out.status s :: rest =>
    if s = "" then b && altFrom false rest
    else (!b) && altFrom true rest
  | b, _ :: rest => altFrom b rest

/-- The open-status flag after a list of records. -/
def endFlag : Bool → List Out → Bool
  | b, [] => b
  | _, Out.status s :: rest => endFlag (if s = "" then false else true) rest
  | b, _ :: rest => endFlag b rest

/-! ### The step invariant: every handler only appends what it emits -/

/-- A handler result is coherent with the starting state: the new
accumulators extend the old ones by exactly the emitted chunks/images, no
terminal record is emitted, the emitted statuses alternate correctly from
the starting flag, and the final flag matches the emitted statuses. -/
def OkResult (st : NState) (r : List Out × NState) : Prop :=
  r.2.full_response = st.full_response ++ chunksText r.1 ∧
  r.2.images = st.images ++ imagesOf r.1 ∧
  noDone r.1 = true ∧
  altFrom st.tool_in_progress r.1 = true ∧
  r.2.tool_in_progress = endFlag st.tool_in_progress r.1

/-! ### A declarative reading of the `code_interpreter_call` image loop
(stated from the spec's Image Extractor wording, to be compared with the
loop embedded from the source) -/

/-- The image records the `code_interpreter_call` output loop recognizes
in one output: a data-URI image output (format between `image/` and the
next `;`, defaulting to `png`; requires a comma) or a direct-base64 image
output with a non-empty payload. Files-form outputs are NOT recognized
here (they are handled only on the response-metadata path). -/
def cicRecognized (o : OutputRec) : List ImageRec :=
  match o with
  | OutputRec.image url b64 data fmt =>
    let u := url.getD ""
    if pyStartsWith u "data:image/" then
      match splitOnce "," u with
      | some (mime_part, b64_data) =>
        [⟨b64_data, if strContains mime_part "image/" then afterImageSlash mime_part else "png"⟩]
      | none => []
    else if b64.getD (data.getD "") ≠ "" then
      [⟨b64.getD (data.getD ""), fmt.getD "png"⟩]
    else []
  | _ => []

/-- Ordered concatenation of the recognized images of a whole `outputs`
list. -/
def cicRecognizedAll : List OutputRec → List ImageRec
  | [] => []
  | o :: os => cicRecognized o ++ cicRecognizedAll os

/-! ### Concrete inputs used by counterexamples and witnesses -/

/-- An event with empty string content (and nothing else). -/
def evEmptyStr : Event := ⟨none, [], [], some (Content.str ""), none⟩

/-- An event whose string content is malformed JSON. -/
def evNotValid : Event := ⟨none, [], [], some (Content.str "\x7bnot valid"), none⟩

/-- A JSON image object serialized WITHOUT a space after the colons (still
a valid JSON encoding of an image object). -/
def s_noSpace : String := "\x7b\"type\":\"image\",\"base64\":\"QQ\"\x7d"

/-- An event carrying `s_noSpace` as its string content. -/
def evNoSpace : Event := ⟨none, [], [], some (Content.str s_noSpace), none⟩

/-- An ordinary text event. -/
def evHello : Event := ⟨none, [], [], some (Content.str "hello"), none⟩

/-- A tool-result event whose content embeds a JSON image object. -/
def evToolImg : Event :=
  ⟨some "tool", [], [],
    some (Content.str "\x7b\"type\": \"image\", \"base64\": \"QUJD\", \"format\": \"png\"\x7d"),
    none⟩

/-- An event with empty string content but response metadata carrying an
image output. -/
def evMetaEmpty : Event :=
  ⟨none, [], [], some (Content.str ""),
    some ⟨[OutputRec.image none (some "QQ") none none], []⟩⟩

theorem chunksText_append (xs ys : List Out) :
    chunksText (xs ++ ys) = chunksText xs ++ chunksText ys := by
  induction xs with
  | nil => simp [chunksText, String.empty_append]
  | cons x xs ih =>
    cases x <;> simp [chunksText, ih, String.append_assoc]

theorem imagesOf_append (xs ys : List Out) :
    imagesOf (xs ++ ys) = imagesOf xs ++ imagesOf ys := by
  induction xs with
  | nil => simp [imagesOf]
  | cons x xs ih => cases x <;> simp [imagesOf, ih]

theorem noDone_append (xs ys : List Out) :
    noDone (xs ++ ys) = (noDone xs && noDone ys) := by
  simp [noDone, List.all_append]

theorem endFlag_append (b : Bool) (xs ys : List Out) :
    endFlag b (xs ++ ys) = endFlag (endFlag b xs) ys := by
  induction xs generalizing b with
  | nil => simp [endFlag]
  | cons x xs ih => cases x <;> simp [endFlag, ih]

theorem altFrom_append (b : Bool) (xs ys : List Out) :
    altFrom b (xs ++ ys) = (altFrom b xs && altFrom (endFlag b xs) ys) := by
  induction xs generalizing b with
  | nil => simp [altFrom, endFlag]
  | cons x xs ih =>
    cases x with
    | status s =>
      by_cases hs : s = "" <;>
        simp [altFrom, endFlag, hs, ih, Bool.and_assoc]
    | chunk t => simp [altFrom, endFlag, ih]
    | image i => simp [altFrom, endFlag, ih]
    | done m i r => simp [altFrom, endFlag, ih]

theorem ok_nil (st : NState) : OkResult st ([], st) := by
  refine ⟨?_, ?_, rfl, rfl, rfl⟩ <;>
    simp [chunksText, imagesOf, String.append_empty]

theorem ok_single_image (st : NState) (i : ImageRec) :
    OkResult st ([Out.image i], { st with images := st.images ++ [i] }) := by
  refine ⟨?_, ?_, rfl, rfl, rfl⟩ <;>
    simp [chunksText, imagesOf, String.append_empty]

theorem ok_single_chunk (st : NState) (t : String) :
    OkResult st ([Out.chunk t], { st with full_response := st.full_response ++ t }) := by
  refine ⟨?_, ?_, rfl, rfl, rfl⟩ <;>
    simp [chunksText, imagesOf, String.append_empty]

theorem ok_status_set (st : NState) (l : String) (hl : l ≠ "")
    (hb : st.tool_in_progress = false) :
    OkResult st ([Out.status l], { st with tool_in_progress := true }) := by
  refine ⟨?_, ?_, rfl, ?_, ?_⟩ <;>
    simp [chunksText, imagesOf, altFrom, endFlag, hl, hb, String.append_empty]

theorem ok_status_clear (st : NState) (hb : st.tool_in_progress = true) :
    OkResult st ([Out.status ""], { st with tool_in_progress := false }) := by
  refine ⟨?_, ?_, rfl, ?_, ?_⟩ <;>
    simp [chunksText, imagesOf, altFrom, endFlag, hb, String.append_empty]

theorem ok_seq {st : NState} {r1 r2 : List Out × NState}
    (h1 : OkResult st r1) (h2 : OkResult r1.2 r2) :
    OkResult st (r1.1 ++ r2.1, r2.2) := by
  obtain ⟨f1, i1, d1, a1, e1⟩ := h1
  obtain ⟨f2, i2, d2, a2, e2⟩ := h2
  refine ⟨?_, ?_, ?_, ?_, ?_⟩
  · simp [chunksText_append, f2, f1, String.append_assoc]
  · simp [imagesOf_append, i2, i1]
  · simp [noDone_append, d1, d2]
  · simp [altFrom_append, a1, ← e1, a2]
  · simp [endFlag_append, ← e1, e2]

theorem ok_fold {α : Type} {f : NState → α → List Out × NState}
    (hf : ∀ st a, OkResult st (f st a)) :
    ∀ (as : List α) (st : NState), OkResult st (foldOuts f st as) := by
  intro as
  induction as with
  | nil => intro st; exact ok_nil st
  | cons a as ih =>
    intro st
    have h1 := hf st a
    have h2 := ih (f st a).2
    simpa [foldOuts] using ok_seq h1 h2

/-! ### Status labels are never the empty string (so a `Status` is never
mistaken for a `StatusClear`) -/

theorem append3_ne_empty (a b c : String) (ha : a.length ≠ 0) :
    a ++ b ++ c ≠ "" := by
  intro h
  have hl := congrArg String.length h
  rw [String.length_append, String.length_append, String.length_empty] at hl
  omega

theorem toolRule_ne_empty (s l : String) (h : toolRule s = some l) : l ≠ "" := by
  unfold toolRule at h
  repeat' split at h
  all_goals first
    | (injection h with h2; subst h2; decide)
    | exact Option.noConfusion h

theorem toolStatusLoop_ne_empty :
    ∀ (names : List String) (l : String), toolStatusLoop names = some l → l ≠ "" := by
  intro names
  induction names with
  | nil => intro l h; exact Option.noConfusion h
  | cons n rest ih =>
    intro l h
    cases hr : toolRule (if n ≠ "" then pyToLower n else "") with
    | some m =>
      simp only [toolStatusLoop, hr] at h
      injection h with h2
      subst h2
      exact toolRule_ne_empty _ _ hr
    | none =>
      simp only [toolStatusLoop, hr] at h
      exact ih l h

theorem get_tool_status_ne_empty (names : List String) :
    get_tool_status names ≠ "" := by
  cases hl : toolStatusLoop names with
  | some l =>
    simp only [get_tool_status, hl]
    exact toolStatusLoop_ne_empty names l hl
  | none =>
    simp only [get_tool_status, hl]
    exact append3_ne_empty _ _ _ (by decide)

/-! ### Every handler satisfies the step invariant -/

theorem ok_processCicOutput (st : NState) (o : OutputRec) :
    OkResult st (processCicOutput st o) := by
  cases o with
  | image url b64 data fmt =>
    dsimp only [processCicOutput]
    split
    · split
      · exact ok_single_image st _
      · exact ok_nil st
    · split
      · exact ok_single_image st _
      · exact ok_nil st
  | files fs => exact ok_nil st
  | other => exact ok_nil st

theorem ok_processFile (st : NState) (f : ImageFile) :
    OkResult st (processFile st f) := by
  unfold processFile
  split
  · exact ok_single_image st _
  · exact ok_nil st

theorem ok_processMetaOutput (st : NState) (o : OutputRec) :
    OkResult st (processMetaOutput st o) := by
  cases o with
  | image url b64 data fmt => exact ok_single_image st _
  | files fs => exact ok_fold ok_processFile fs st
  | other => exact ok_nil st

theorem ok_processMeta (st : NState) (md : Option RespMeta) :
    OkResult st (processMeta st md) := by
  cases md with
  | none => exact ok_nil st
  | some m => exact ok_fold ok_processMetaOutput _ st

theorem ok_processImageBlock (st : NState) (url b64 fmt : Option String) :
    OkResult st (processImageBlock st url b64 fmt) := by
  unfold processImageBlock
  dsimp only
  split
  · split
    · exact ok_single_image st _
    · exact ok_nil st
  · split
    · exact ok_single_image st _
    · exact ok_nil st

theorem ok_cicStatusStep (st : NState) (outputs : List OutputRec) :
    OkResult st (cicStatusStep st outputs) := by
  unfold cicStatusStep
  split
  next h => exact ok_status_set st _ (by decide) h.1
  next => exact ok_nil st

theorem ok_cicClearStep (st : NState) (outputs : List OutputRec) :
    OkResult st (cicClearStep st outputs) := by
  unfold cicClearStep
  split
  · split
    next h => exact ok_status_clear st h
    next => exact ok_nil st
  · exact ok_nil st

theorem ok_processCicBlock (st : NState) (outputs : List OutputRec) :
    OkResult st (processCicBlock st outputs) := by
  have h1 := ok_cicStatusStep st outputs
  have h2 := ok_cicClearStep (cicStatusStep st outputs).2 outputs
  have h3 := ok_fold ok_processCicOutput outputs
    (cicClearStep (cicStatusStep st outputs).2 outputs).2
  exact ok_seq (ok_seq h1 h2) h3

theorem ok_eventClearStep (st : NState) : OkResult st (eventClearStep st) := by
  unfold eventClearStep
  split
  next h => exact ok_status_clear st h
  next => exact ok_nil st

theorem ok_processBlock (st : NState) (b : Block) :
    OkResult st (processBlock st b) := by
  cases b with
  | text t =>
    dsimp only [processBlock]
    split
    · exact ok_single_chunk st _
    · exact ok_nil st
  | reasoning => exact ok_nil st
  | server_tool_call name =>
    dsimp only [processBlock]
    split
    next h => exact ok_status_set st _ (get_tool_status_ne_empty _) h
    next => exact ok_nil st
  | server_tool_result =>
    dsimp only [processBlock]
    split
    next h => exact ok_status_clear st h
    next => exact ok_nil st
  | code_interpreter_call outputs => exact ok_processCicBlock st outputs
  | image url b64 fmt => exact ok_processImageBlock st url b64 fmt
  | otherDict => exact ok_nil st
  | objText t =>
    dsimp only [processBlock]
    split
    · exact ok_single_chunk st _
    · exact ok_nil st
  | objImage b64 data fmt =>
    dsimp only [processBlock]
    split
    · exact ok_single_image st _
    · exact ok_nil st
  | objOther => exact ok_nil st

theorem ok_processStrContent (st : NState) (s : String) :
    OkResult st (processStrContent st s) := by
  unfold processStrContent
  split
  · split
    · exact ok_single_image st _
    · exact ok_single_chunk st _
  · exact ok_nil st

theorem ok_processContent (st : NState) (c : Content) :
    OkResult st (processContent st c) := by
  cases c with
  | str s => exact ok_processStrContent st s
  | blocks bs => exact ok_fold ok_processBlock bs st
  | otherTruthy => exact ok_nil st
  | noneVal => exact ok_nil st

theorem ok_processToolMsg (st : NState) (e : Event) :
    OkResult st (processToolMsg st e) := by
  unfold processToolMsg
  repeat' split
  all_goals first
    | exact ok_single_image st _
    | exact ok_nil st

theorem ok_processEvent (st : NState) (e : Event) :
    OkResult st (processEvent st e) := by
  unfold processEvent
  split
  · exact ok_processToolMsg st e
  · split
    · split
      next h => exact ok_status_set st _ (get_tool_status_ne_empty _) h
      next => exact ok_nil st
    · split
      · split
        next h => exact ok_status_set st _ (get_tool_status_ne_empty _) h
        next => exact ok_nil st
      · split
        · exact ok_eventClearStep st
        · split
          · exact ok_seq (ok_seq (ok_eventClearStep st)
              (ok_processMeta (eventClearStep st).2 e.response_metadata))
              (ok_processContent
                (processMeta (eventClearStep st).2 e.response_metadata).2 _)
          · exact ok_eventClearStep st

theorem ok_runEvents (evs : List Event) : OkResult initState (runEvents evs) :=
  ok_fold ok_processEvent evs initState

theorem filter_isDone_of_noDone {outs : List Out} (h : noDone outs = true) :
    outs.filter isDone = [] := by
  simp only [noDone, List.all_eq_true] at h
  rw [List.filter_eq_nil_iff]
  intro a ha
  simpa using h a ha

/-! ### Claim theorems -/

/-- C1: for every finite upstream event sequence, the generator emits
exactly one terminal `done` record, and it is the last record of the
output stream. -/
theorem done_emitted_once_and_last (evs : List Event) :
    ((generate_stream evs).filter isDone).length = 1 ∧
    ((generate_stream evs).getLast?.map isDone) = some true := by
  obtain ⟨-, -, hnd, -, -⟩ := ok_runEvents evs
  constructor
  · rw [generate_stream, List.filter_append, filter_isDone_of_noDone hnd]
    simp [isDone]
  · rw [generate_stream, List.getLast?_concat]
    simp [isDone]

/-- C2: the terminal record's `message` field is the ordered concatenation
of all chunk texts emitted before it, and its `images` field is the
ordered list of all image records emitted before it. -/
theorem done_fields_aggregate (evs : List Event) :
    ∃ pre : List Out,
      generate_stream evs =
        pre ++ [Out.done (chunksText pre) (imagesOf pre) "assistant"] := by
  obtain ⟨hf, hi, -, -, -⟩ := ok_runEvents evs
  refine ⟨(runEvents evs).1, ?_⟩
  rw [generate_stream, hf, hi]
  simp [initState, String.empty_append]

/-- C3: statuses strictly alternate over the whole stream: a `Status`
(non-empty label) is emitted only when no status is open, and a
`StatusClear` (`status ""`) only when one is, starting with none open.
Hence no two `Status` records occur without an intervening clear, and no
clear lacks a preceding unmatched `Status`. -/
theorem status_alternation (evs : List Event) :
    altFrom false (generate_stream evs) = true := by
  obtain ⟨-, -, -, ha, -⟩ := ok_runEvents evs
  rw [generate_stream, altFrom_append]
  have ha' : altFrom false (runEvents evs).1 = true := ha
  simp [ha', altFrom]

/-! ### C4: the `code_interpreter_call` block -/

theorem processCicOutput_eq_recognized (st : NState) (o : OutputRec) :
    processCicOutput st o =
      ((cicRecognized o).map Out.image,
        { st with images := st.images ++ cicRecognized o }) := by
  cases o with
  | image url b64 data fmt =>
    dsimp only [processCicOutput, cicRecognized]
    split
    · split
      · simp
      · simp
    · split
      · simp
      · simp
  | files fs => simp [processCicOutput, cicRecognized]
  | other => simp [processCicOutput, cicRecognized]

theorem foldCic_eq_recognized (os : List OutputRec) (st : NState) :
    foldOuts processCicOutput st os =
      ((cicRecognizedAll os).map Out.image,
        { st with images := st.images ++ cicRecognizedAll os }) := by
  induction os generalizing st with
  | nil => simp [foldOuts, cicRecognizedAll]
  | cons o os ih =>
    simp [foldOuts, cicRecognizedAll, processCicOutput_eq_recognized, ih,
      List.append_assoc]

/-- C4 (amended): for a `code_interpreter_call` block, if no status is
active and `outputs` is empty, a `Status` with label `"💻 Running code..."`
(not the undecorated "Running code") is emitted and the status becomes
active; if `outputs` is non-empty, a `StatusClear` is emitted first when a
status is active, and then one `Image` per data-URI image output (format
between `image/` and the next `;`, default `png`; `data:image/jpeg;base64,QUJD`
yields base64 `QUJD` and format `jpeg`) and per direct-base64 image output
with a non-empty payload. Files-form outputs are NOT extracted on this
path (only on the response-metadata path), contrary to the claim. -/
theorem cic_block_amended :
    (∀ (st : NState) (outputs : List OutputRec),
      processCicBlock st outputs =
        if st.tool_in_progress = false ∧ outputs = [] then
          ([Out.status "💻 Running code..."], { st with tool_in_progress := true })
        else if outputs ≠ [] then
          ((if st.tool_in_progress then [Out.status ""] else []) ++
              (cicRecognizedAll outputs).map Out.image,
            { st with tool_in_progress := false,
                      images := st.images ++ cicRecognizedAll outputs })
        else ([], st)) ∧
    cicRecognizedAll
        [OutputRec.image (some "data:image/jpeg;base64,QUJD") none none none] =
      [⟨"QUJD", "jpeg"⟩] := by
  constructor
  · intro st outputs
    obtain ⟨fr, im, b⟩ := st
    unfold processCicBlock cicStatusStep cicClearStep
    by_cases ho : outputs = []
    · subst ho
      cases b <;> simp [foldOuts, cicRecognizedAll]
    · cases b <;> simp [ho, foldCic_eq_recognized]
  · decide

/-- C4 counterexample: the status label carries the emoji/ellipsis
decoration, and a files-form output inside a `code_interpreter_call`
block's own `outputs` list produces NO image event (the claim requires
one per image-mime file). -/
theorem cic_block_counterexample :
    processBlock ⟨"", [], false⟩ (Block.code_interpreter_call []) =
      ([Out.status "💻 Running code..."], ⟨"", [], true⟩) ∧
    "💻 Running code..." ≠ "Running code" ∧
    processBlock ⟨"", [], false⟩
        (Block.code_interpreter_call
          [OutputRec.files [⟨some "QUJD", some "image/png"⟩]]) =
      ([], ⟨"", [], false⟩) := by
  refine ⟨by decide, by decide, by decide⟩

/-! ### C5: the pre-content status reset -/

/-- C5 (amended): for every event that is neither a tool result nor
declares pending tool calls, a `StatusClear` is emitted before any other
output for the event if and only if the tool-in-progress flag is true —
REGARDLESS of whether the event carries any content; the flag is then
false and the event's content is processed as if the flag had been clear. -/
theorem clear_before_content_amended (st : NState) (e : Event)
    (hm : ¬(e.msg_type = some "tool" ∨ e.msg_type = some "function"))
    (ht : e.tool_calls = []) (ha : e.additional_kwargs_tool_calls = []) :
    processEvent st e =
      ((if st.tool_in_progress then [Out.status ""] else []) ++
          (processEvent { st with tool_in_progress := false } e).1,
        (processEvent { st with tool_in_progress := false } e).2) := by
  obtain ⟨fr, im, b⟩ := st
  obtain ⟨mt, tc, akw, co, md⟩ := e
  dsimp only at ht ha
  subst ht; subst ha
  rw [processEvent, processEvent, if_neg hm, if_neg hm]
  simp only [ne_eq, not_true_eq_false, not_false_eq_true, if_neg, if_true]
  cases co with
  | none => cases b <;> simp [eventClearStep]
  | some c =>
    cases hct : contentTruthy c <;>
      cases b <;>
        simp [eventClearStep, hct]

/-- C5 counterexample: with the flag set and EMPTY string content (the
claim requires non-empty content for a clear), the code still emits a
`StatusClear`. -/
theorem clear_on_empty_content_counterexample :
    evEmptyStr.content = some (Content.str "") ∧
    contentTruthy (Content.str "") = false ∧
    (processEvent ⟨"", [], true⟩ evEmptyStr).1 = [Out.status ""] := by
  refine ⟨rfl, by decide, by decide⟩

/-- C5 witness: the amended theorem applied to a concrete event with
empty content and the flag set. -/
theorem clear_before_content_amended_witness :
    processEvent ⟨"", [], true⟩ evEmptyStr = ([Out.status ""], ⟨"", [], false⟩) := by
  have h := clear_before_content_amended ⟨"", [], true⟩ evEmptyStr
    (by decide) rfl rfl
  exact h.trans (by decide)

/-! ### C6: plain-string content -/

/-- C6 (amended): for an event whose content is a non-empty plain string
(no tool result, no tool calls, no response metadata): exactly one
`Image` and no `Chunk` is emitted iff the string starts with a brace,
contains the literal substring matching the default `json.dumps`
separator style, AND parses as a JSON object of type image (`strImageProbe`);
otherwise — including every string that fails to parse as JSON, and also
valid JSON image objects serialized without the space after the colon —
the string is appended to `full_response` and emitted as exactly one
`Chunk` with the literal text, and no exception is raised. -/
theorem str_content_amended (st : NState) (e : Event) (s : String)
    (hm : ¬(e.msg_type = some "tool" ∨ e.msg_type = some "function"))
    (ht : e.tool_calls = []) (ha : e.additional_kwargs_tool_calls = [])
    (hc : e.content = some (Content.str s)) (hr : e.response_metadata = none)
    (hs : s ≠ "") :
    processEvent st e =
      match strImageProbe s with
      | some img =>
        ((if st.tool_in_progress then [Out.status ""] else []) ++ [Out.image img],
          { st with tool_in_progress := false, images := st.images ++ [img] })
      | none =>
        ((if st.tool_in_progress then [Out.status ""] else []) ++ [Out.chunk s],
          { st with tool_in_progress := false,
                    full_response := st.full_response ++ s }) := by
  obtain ⟨fr, im, b⟩ := st
  obtain ⟨mt, tc, akw, co, md⟩ := e
  dsimp only at ht ha hc hr
  subst ht; subst ha; subst hc; subst hr
  rw [processEvent, if_neg hm]
  simp only [ne_eq, not_true_eq_false, not_false_eq_true, if_neg, if_true]
  have hct : contentTruthy (Content.str s) = true := by
    simpa [contentTruthy] using hs
  cases hp : strImageProbe s with
  | some img =>
    cases b <;>
      simp [hct, eventClearStep, processMeta, processContent,
        processStrContent, hs, hp]
  | none =>
    cases b <;>
      simp [hct, eventClearStep, processMeta, processContent,
        processStrContent, hs, hp]

/-- C6 counterexample: `s_noSpace` IS a JSON-encoded image object (shown
by `json_loads`), yet the event yields a `Chunk` with the literal text
and no `Image`, because the guard demands the substring with a space
after the colon. -/
theorem json_image_no_space_counterexample :
    json_loads s_noSpace =
      some (JVal.obj [("type", JVal.str "image"), ("base64", JVal.str "QQ")]) ∧
    (processEvent ⟨"", [], false⟩ evNoSpace).1 = [Out.chunk s_noSpace] := by
  exact ⟨rfl, by decide⟩

/-- C6 witness: the amended theorem applied to the malformed JSON string
content, producing the literal chunk. -/
theorem str_content_amended_witness :
    processEvent ⟨"", [], false⟩ evNotValid =
      ([Out.chunk "\x7bnot valid"], ⟨"\x7bnot valid", [], false⟩) := by
  have h := str_content_amended ⟨"", [], false⟩ evNotValid "\x7bnot valid"
    (by decide) rfl rfl rfl rfl (by decide)
  exact h.trans (by decide)

/-! ### C7: classifier outputs -/

/-- C7 (amended): the classifier's labels carry an emoji and a trailing
ellipsis: `execute_sales_query` maps to `"🔍 Querying database..."`,
`generate_image` to `"🎨 Generating image..."`, an unknown name to
`"⚙️ Using unknown_tool_x..."`, the empty list to `"⚙️ Using tool..."`;
matching is case-insensitive and the default label preserves the first
name's original case. -/
theorem get_tool_status_amended :
    get_tool_status ["execute_sales_query"] = "🔍 Querying database..." ∧
    get_tool_status ["generate_image"] = "🎨 Generating image..." ∧
    get_tool_status ["unknown_tool_x"] = "⚙️ Using unknown_tool_x..." ∧
    get_tool_status [] = "⚙️ Using tool..." ∧
    get_tool_status ["EXECUTE_SALES_QUERY"] = "🔍 Querying database..." ∧
    get_tool_status ["Unknown_Tool_X"] = "⚙️ Using Unknown_Tool_X..." := by
  refine ⟨by decide, by decide, by decide, by decide, by decide, by decide⟩

/-- C7 counterexample: the classifier does not return the undecorated
label the claim states. -/
theorem get_tool_status_counterexample :
    get_tool_status ["execute_sales_query"] = "🔍 Querying database..." ∧
    "🔍 Querying database..." ≠ "Querying database" := by
  exact ⟨by decide, by decide⟩

/-! ### C8: upstream failure mid-stream -/

/-- C8: evaluation of the code at the failing input — an upstream source
that yields one text event and then raises. The output stream is exactly
the already-written chunk: it is truncated with NO terminal record of any
kind (no `done`, no error record), because `generate_stream` has no
try/except around its iteration loop and the final record is only reached
on normal exhaustion. This contradicts the claim's mandated terminal
error record. -/
theorem midstream_failure_truncates :
    generate_stream_exc [UpItem.ev evHello, UpItem.raiseExc "boom"] =
      [Out.chunk "hello"] ∧
    ∀ o ∈ generate_stream_exc [UpItem.ev evHello, UpItem.raiseExc "boom"],
      isDone o = false := by
  refine ⟨by decide, by decide⟩

/-! ### C9: events and blocks that never produce chunks -/

/-- C9: a tool-result event (`msg_type` of `tool` or `function`) emits
either nothing or exactly one `Image` (when its string content embeds a
JSON image object) — never a `Chunk`; a `reasoning` block emits nothing;
a bare `server_tool_result` block emits nothing or a single
`StatusClear` — never a `Chunk`. -/
theorem no_chunk_from_tool_or_silent_blocks :
    (∀ (st : NState) (e : Event),
        (e.msg_type = some "tool" ∨ e.msg_type = some "function") →
        (processEvent st e).1 = [] ∨
          ∃ img, (processEvent st e).1 = [Out.image img]) ∧
    (∀ st : NState, processBlock st Block.reasoning = ([], st)) ∧
    (∀ st : NState,
        (processBlock st Block.server_tool_result).1 = [] ∨
          (processBlock st Block.server_tool_result).1 = [Out.status ""]) := by
  refine ⟨?_, fun st => rfl, ?_⟩
  · intro st e hm
    rw [processEvent, if_pos hm]
    unfold processToolMsg
    repeat' split
    all_goals first
      | exact Or.inl rfl
      | exact Or.inr ⟨_, rfl⟩
  · intro st
    dsimp only [processBlock]
    split
    · exact Or.inr rfl
    · exact Or.inl rfl

/-- C9 witness: the first conjunct applied to a concrete tool-result
event whose content embeds a JSON image object. -/
theorem no_chunk_from_tool_witness :
    (processEvent ⟨"", [], false⟩ evToolImg).1 = [] ∨
      ∃ img, (processEvent ⟨"", [], false⟩ evToolImg).1 = [Out.image img] :=
  no_chunk_from_tool_or_silent_blocks.1 ⟨"", [], false⟩ evToolImg (Or.inl rfl)

/-! ### C10: empty content short-circuits everything, metadata included -/

/-- C10: for an event that is neither a tool result nor declares pending
tool calls, if the content attribute is missing or falsy then the only
possible output is a `StatusClear` — no `Chunk` and no `Image`, even when
the event's response metadata carries image outputs, because the metadata
is inspected only after the non-empty-content check. -/
theorem empty_content_no_output (st : NState) (e : Event)
    (hm : ¬(e.msg_type = some "tool" ∨ e.msg_type = some "function"))
    (ht : e.tool_calls = []) (ha : e.additional_kwargs_tool_calls = [])
    (hc : e.content = none ∨
      ∃ c, e.content = some c ∧ contentTruthy c = false) :
    (processEvent st e).1 =
      (if st.tool_in_progress then [Out.status ""] else []) := by
  obtain ⟨fr, im, b⟩ := st
  obtain ⟨mt, tc, akw, co, md⟩ := e
  dsimp only at ht ha hc
  subst ht; subst ha
  rw [processEvent, if_neg hm]
  simp only [ne_eq, not_true_eq_false, not_false_eq_true, if_neg, if_true]
  rcases hc with hn | ⟨c, hcs, hcf⟩
  · subst hn
    cases b <;> simp [eventClearStep]
  · subst hcs
    cases b <;> simp [eventClearStep, hcf]

/-- C10 witness: a concrete event with empty string content whose
response metadata carries an image output; nothing is emitted. -/
theorem empty_content_no_output_witness :
    (processEvent ⟨"", [], false⟩ evMetaEmpty).1 = [] := by
  have h := empty_content_no_output ⟨"", [], false⟩ evMetaEmpty (by decide)
    rfl rfl (Or.inr ⟨Content.str "", rfl, by decide⟩)
  simpa using h

end AgentApp
